import Mathlib

/-!
# Verification of `src/collector.py` (baulab-dashboard)

Shallow embedding of the GPU-fleet collector. Python strings are modelled as
`List Char` (Python slicing and `strip` act on code points); module-level
configuration (`NODES`, timeouts) and the external `parse_nvidia_smi_output`
function are parameters. Effects are explicit: the subprocess outcome of one
SSH invocation is an `ExecOutcome` value, a probe that itself crashes is an
`Except.error`, and the mutable module cache is explicit state.
-/

namespace Collector

/-! ## Python string primitives over `List Char` -/

/-- Python `str.strip()`: remove leading and trailing whitespace
(`List.rdropWhile` drops the trailing run). -/
def stripWs (l : List Char) : List Char :=
  List.rdropWhile Char.isWhitespace (l.dropWhile Char.isWhitespace)

/-- Python `str.strip(",")`: remove leading and trailing commas. -/
def stripComma (l : List Char) : List Char :=
  List.rdropWhile (fun c => c = ',') (l.dropWhile (fun c => c = ','))

/-- Python `str.split(sep)` for a one-character separator `c`: split into the
(possibly empty) chunks between occurrences of `c`.  `splitChar c [] = [[]]`,
matching Python `"".split(",") == [""]`. -/
def splitChar (c : Char) : List Char → List (List Char)
  | [] => [[]]
  | x :: xs =>
    if x = c then [] :: splitChar c xs
    else
      match splitChar c xs with
      | [] => [[x]]
      | t :: ts => (x :: t) :: ts

/-- Python `s.split(sep, 1)` for a multi-character separator, reported as
`some (before, after)` at the leftmost occurrence, or `none` when `sep` does
not occur (so `none` also decides Python `sep not in s`). -/
def splitFirst (sep : List Char) : List Char → Option (List Char × List Char)
  | [] => if sep = [] then some ([], []) else none
  | x :: xs =>
    if sep.isPrefixOf (x :: xs) then some ([], (x :: xs).drop sep.length)
    else (splitFirst sep xs).map (fun p => (x :: p.1, p.2))

/-- The sentinel marker separating the metrics section from the users
section, `---USERS---`. -/
def marker : List Char := "---USERS---".data

/-- Python `s[:n]` on a string. -/
def pyTruncate (n : Nat) (s : String) : String :=
  String.mk (s.data.take n)

/-- Python `s or fallback` for strings: the empty string is falsy. -/
def pyOr (s fallback : String) : String :=
  if s = "" then fallback else s

/-- Python `s.strip()` at the `String` level. -/
def pyStrip (s : String) : String :=
  String.mk (stripWs s.data)

/-! ## The output parser (`_parse_users`) -/

/-- The function `_parse_users` over `List Char`: Python
`if "---USERS---" not in output: return []` /
`raw = parts[1].strip().strip(",")` / `if not raw: return []` /
`[u.strip() for u in raw.split(",") if u.strip()]`. -/
def parseUsersChars (output : List Char) : List (List Char) :=
  match splitFirst marker output with
  | none => []
  | some p =>
    let raw := stripComma (stripWs p.2)
    if raw = [] then []
    else ((splitChar ',' raw).map stripWs).filter (fun u => u ≠ [])

/-- The function `_parse_users(output)` from `collector.py`, at the `String` level. -/
def _parse_users (output : String) : List String :=
  (parseUsersChars output.data).map String.mk

/-- Tokenisation as the spec describes it: split the text on commas, trim
each token of surrounding whitespace, drop empty tokens. -/
def toks (l : List Char) : List (List Char) :=
  ((splitChar ',' l).map stripWs).filter (fun u => u ≠ [])

/-- User parsing as the spec's words describe it (for the refinement claim):
empty list when the marker is absent, otherwise the tokenisation of the text
after the marker — with no pre-stripping of the section and no emptiness
guard. -/
def specParseUsers (output : List Char) : List (List Char) :=
  match splitFirst marker output with
  | none => []
  | some p => toks p.2

/-- Python `stdout.split("---USERS---")[0]`: everything before the first
marker occurrence, or the whole string when the marker is absent. -/
def beforeMarker (s : List Char) : List Char :=
  match splitFirst marker s with
  | none => s
  | some p => p.1

/-! ## Data model -/

/-- One entry of the per-GPU dict built in `_query_node` from a `GPUInfo`
record (the external `parse_nvidia_smi_output` collaborator produces these;
its internals live in `parser.py` and are abstracted as a parameter). -/
structure Gpu where
  index : Nat
  name : String
  utilization : Int
  memory_used : Int
  memory_total : Int
  temperature : Int
deriving Repr, DecidableEq

/-- The `NodeStatus` dataclass: `status` is `"ok"` or `"error"`, `gpus` and
`users` default to `[]`, `message` defaults to `None`. -/
structure NodeStatus where
  status : String
  gpus : List Gpu := []
  users : List String := []
  message : Option String := none
deriving Repr, DecidableEq

/-- The spec's `NodeResult` invariant: `message` is non-null iff
`status="error"`; the status is one of the two closed enum values; and
`gpus`/`users` are populated only when `status="ok"` (an error node has both
empty). -/
def statusInvariant (ns : NodeStatus) : Prop :=
  (ns.message ≠ none ↔ ns.status = "error") ∧
  (ns.status = "ok" ∨ ns.status = "error") ∧
  (ns.status = "error" → ns.gpus = [] ∧ ns.users = [])

/-- Outcome of one `subprocess.run` SSH invocation, as observed by
`_query_node`'s `try` block: normal completion with exit code and captured
streams, `subprocess.TimeoutExpired`, or any other exception with its
`str(e)` description. -/
inductive ExecOutcome where
  | completed (returncode : Int) (stdout stderr : String)
  | timedOut
  | raised (description : String)
deriving Repr, DecidableEq

/-! ## The node prober (`_query_node`) -/

/-- The prober `_query_node(host)` as a function of the subprocess outcome for that
host.  `parse` abstracts `parse_nvidia_smi_output` composed with the
dict-building comprehension of lines 84–94. -/
def _query_node (parse : String → List Gpu) (outcome : ExecOutcome) : NodeStatus :=
  match outcome with
  | .completed rc stdout stderr =>
    if rc ≠ 0 then
      let msg := pyOr (pyStrip stderr) (pyStrip stdout)
      { status := "error", message := some (pyOr (pyTruncate 200 msg) "nvidia-smi failed") }
    else
      let gpuOutput := pyStrip (String.mk (beforeMarker stdout.data))
      { status := "ok"
        gpus := parse gpuOutput
        users := _parse_users stdout }
  | .timedOut => { status := "error", message := some "Connection timeout" }
  | .raised d => { status := "error", message := some (pyTruncate 200 d) }

/-! ## The fleet collector (`_collect_all`) -/

/-- The `NodeStatus` built by `_collect_all`'s `except` clause when awaiting
a future raises: `NodeStatus(status="error", message=str(e)[:200])`. -/
def errFromExc (e : String) : NodeStatus :=
  { status := "error", message := some (pyTruncate 200 e) }

/-- Resolving one future: `future.result()` either returns the probe's
`NodeStatus` or raises, in which case the `except` clause substitutes an
error `NodeStatus`. -/
def settle (r : Except String NodeStatus) : NodeStatus :=
  match r with
  | .ok ns => ns
  | .error e => errFromExc e

/-- Python dict assignment `data[k] = v` on an insertion-ordered association
list: overwrite in place when the key is present, append otherwise. -/
def dictInsert (d : List (String × NodeStatus)) (k : String) (v : NodeStatus) :
    List (String × NodeStatus) :=
  if d.any (fun p => p.1 = k) then
    d.map (fun p => if p.1 = k then (k, v) else p)
  else d ++ [(k, v)]

/-- Python `d[k]` lookup (as an `Option`). -/
def dictLookup (d : List (String × NodeStatus)) (k : String) : Option NodeStatus :=
  (d.find? (fun p => p.1 = k)).map Prod.snd

/-- The result-collection loop of `_collect_all` (lines 109–115) as a
function of the `as_completed` sequence: one element per submitted future,
in completion order, carrying the node it was submitted for and how
`future.result()` resolved.  The loop body writes `data[node] = settle r`
into the result dict. -/
def collectResults (completions : List (String × Except String NodeStatus)) :
    List (String × NodeStatus) :=
  completions.foldl (fun d p => dictInsert d p.1 (settle p.2)) []

/-- Worker-pool bound `min(20, len(NODES) * 2)` passed to
`ThreadPoolExecutor` at line 108. -/
def maxWorkers (nodes : List String) : Nat :=
  min 20 (nodes.length * 2)

/-- The collector `_collect_all()`.  Constructing
`ThreadPoolExecutor(max_workers=min(20, len(NODES) * 2))` at line 108 raises
`ValueError("max_workers must be greater than 0")` whenever the bound is not
positive — that is, exactly when `NODES` is empty — before any probe is
submitted; there is no handler in `_collect_all`, so that error propagates.
Otherwise the dict built by the collection loop is returned. -/
def _collect_all (nodes : List String)
    (completions : List (String × Except String NodeStatus)) :
    Except String (List (String × NodeStatus)) :=
  if maxWorkers nodes ≤ 0 then Except.error "max_workers must be greater than 0"
  else Except.ok (collectResults completions)

/-- The last result recorded for node `n` in the completion sequence, i.e.
the value a Python dict retains after all `data[n] = ...` assignments. -/
def lastFor (n : String) (completions : List (String × Except String NodeStatus)) :
    Option (Except String NodeStatus) :=
  completions.foldl (fun acc p => if p.1 = n then some p.2 else acc) none

/-! ## The snapshot cache (`_cache`, `get_status`, `_update_cache`) -/

/-- One published snapshot: the dict `_update_cache` stores into `_cache`,
with a non-null `last_updated` ISO timestamp and per-node entries. -/
structure Snapshot where
  last_updated : String
  nodes : List (String × NodeStatus)
deriving Repr, DecidableEq

/-- The module-level `_cache` dict: `none` models the initial empty dict
(`_cache = {}`), `some snap` the dict stored by `_update_cache` (which is
always non-empty, so Python's `if _cache:` truthiness test coincides with
the `Option` split). -/
structure CacheState where
  cache : Option Snapshot
deriving Repr, DecidableEq

/-- Initially `_cache = {}` at module load. -/
def initialCache : CacheState := ⟨none⟩

/-- The value returned by `get_status()`: `last_updated` may be `None`. -/
structure StatusView where
  last_updated : Option String
  nodes : List (String × NodeStatus)
deriving Repr, DecidableEq

/-- Reader `get_status()`: under the lock, a copy of `_cache` when non-empty, else
`{"last_updated": None, "nodes": {}}`. -/
def get_status (st : CacheState) : StatusView :=
  match st.cache with
  | none => { last_updated := none, nodes := [] }
  | some snap => { last_updated := some snap.last_updated, nodes := snap.nodes }

/-- The per-node dict built by `_update_cache`'s comprehension:
`{"status": ns.status, "gpus": ns.gpus, "users": getattr(ns, "users", []) or
[], "message": ns.message}` (`getattr` always finds the attribute; `or []`
maps a falsy empty list to `[]`). -/
def toEntry (ns : NodeStatus) : NodeStatus :=
  { ns with users := if ns.users.isEmpty then [] else ns.users }

/-- Writer `_update_cache()`: run `_collect_all` (here: its node list and
completion sequence), stamp with the current UTC time `ts`, and replace
`_cache` wholesale.  `_update_cache` has no handler, so an exception from
`_collect_all` propagates, and since `_cache` is only assigned at the very
end, a failing update leaves the previous cache untouched. -/
def _update_cache (ts : String) (nodes : List String)
    (completions : List (String × Except String NodeStatus))
    (_st : CacheState) : Except String CacheState :=
  match _collect_all nodes completions with
  | .error e => .error e
  | .ok data =>
    .ok ⟨some { last_updated := ts
                nodes := data.map (fun p => (p.1, toEntry p.2)) }⟩

/-! ## The refresh scheduler (`_background_loop`, `start_collector`) -/

/-- Operations touching the shared cache: a `get_status` read, or one
refresh (`_update_cache` call) with its timestamp, node list and completion
data. -/
inductive Op where
  | read
  | refresh (ts : String) (nodes : List String)
      (completions : List (String × Except String NodeStatus))

/-- Effect of one operation on the cache: reads do not modify `_cache`
(they copy it under the lock); a refresh replaces it when the collection
succeeds and — as in the background loop's `except Exception: pass` —
leaves it untouched when the update raises. -/
def stepOp (st : CacheState) : Op → CacheState
  | .read => st
  | .refresh ts nodes cs =>
    match _update_cache ts nodes cs st with
    | .ok st2 => st2
    | .error _ => st

/-- A sequence of cache operations. -/
def runOps (st : CacheState) (ops : List Op) : CacheState :=
  ops.foldl stepOp st

/-- One iteration of `_background_loop`'s body: `try: _update_cache()
except Exception: pass` — a raising update leaves the cache as it was and
the loop keeps running. -/
def backgroundIter (st : CacheState) (upd : CacheState → Except String CacheState) :
    CacheState :=
  match upd st with
  | .ok st2 => st2
  | .error _ => st

/-- Result of a completed `start_collector()` call: the cache state after
the initial synchronous collection, and whether the background thread was
started (`thread.start()` reached). -/
structure StartResult where
  state : CacheState
  threadStarted : Bool
deriving Repr, DecidableEq

/-- Startup `start_collector()`: runs `_update_cache()` synchronously with no
exception handler, then starts the daemon thread.  An exception from the
initial update propagates to the caller and `thread.start()` is never
reached. -/
def start_collector (upd : CacheState → Except String CacheState) (st : CacheState) :
    Except String StartResult :=
  match upd st with
  | .ok st2 => .ok { state := st2, threadStarted := true }
  | .error e => .error e

/-! ## Lemmas: `splitChar` -/

theorem splitChar_nil (c : Char) : splitChar c [] = [[]] := rfl

theorem splitChar_cons_self (c : Char) (xs : List Char) :
    splitChar c (c :: xs) = [] :: splitChar c xs := by
  simp [splitChar]

theorem splitChar_ne_nil (c : Char) (l : List Char) : splitChar c l ≠ [] := by
  induction l with
  | nil => simp [splitChar]
  | cons x xs ih =>
    by_cases hx : x = c
    · subst hx; simp [splitChar_cons_self]
    · simp only [splitChar, if_neg hx]
      cases hS : splitChar c xs with
      | nil => simp
      | cons t ts => simp

theorem splitChar_cons_ne (c x : Char) (xs : List Char) (hx : ¬ x = c)
    (h : List Char) (t : List (List Char)) (hS : splitChar c xs = h :: t) :
    splitChar c (x :: xs) = (x :: h) :: t := by
  simp only [splitChar, if_neg hx, hS]

theorem splitChar_exists_cons (c : Char) (l : List Char) :
    ∃ h t, splitChar c l = h :: t := by
  cases hS : splitChar c l with
  | nil => exact absurd hS (splitChar_ne_nil c l)
  | cons h t => exact ⟨h, t, rfl⟩

/-! ## Lemmas: `stripWs` -/

theorem stripWs_nil : stripWs [] = [] := rfl

theorem stripWs_cons_ws (w : Char) (hw : w.isWhitespace) (l : List Char) :
    stripWs (w :: l) = stripWs l := by
  simp [stripWs, List.dropWhile_cons, hw]

theorem stripWs_eq_nil (l : List Char) (h : ∀ x ∈ l, x.isWhitespace) :
    stripWs l = [] := by
  have hd : l.dropWhile Char.isWhitespace = [] := List.dropWhile_eq_nil_iff.mpr h
  simp [stripWs, hd, List.rdropWhile]

theorem stripWs_concat_ws (t : List Char) (x : Char) (hx : x.isWhitespace) :
    stripWs (t ++ [x]) = stripWs t := by
  rw [stripWs, stripWs, List.dropWhile_append]
  by_cases he : (t.dropWhile Char.isWhitespace).isEmpty
  · simp only [he, if_pos]
    rw [List.isEmpty_iff] at he
    simp [List.dropWhile_cons, hx, he, List.rdropWhile]
  · simp only [he, if_neg, Bool.false_eq_true, not_false_iff, if_neg]
    rw [List.rdropWhile_concat_pos _ _ x hx]

theorem ws_ne_comma (w : Char) (hw : w.isWhitespace = true) : ¬ w = ',' := by
  intro h
  subst h
  exact absurd hw (by decide)

theorem modifyLast_cons_of_ne_nil (f : List Char → List Char) (h : List Char)
    (t : List (List Char)) (ht : t ≠ []) :
    (h :: t).modifyLast f = h :: t.modifyLast f := by
  rcases List.eq_nil_or_concat t with rfl | ⟨t₀, a, rfl⟩
  · exact absurd rfl ht
  · rw [List.concat_eq_append, ← List.cons_append, List.modifyLast_append_one,
      List.modifyLast_append_one, List.cons_append]

theorem splitChar_concat_sep (c : Char) (l : List Char) :
    splitChar c (l ++ [c]) = splitChar c l ++ [[]] := by
  induction l with
  | nil => simp [splitChar_cons_self]; rfl
  | cons x xs ih =>
    by_cases hx : x = c
    · subst hx
      rw [List.cons_append, splitChar_cons_self, splitChar_cons_self, ih, List.cons_append]
    · obtain ⟨h, t, hS⟩ := splitChar_exists_cons c xs
      rw [List.cons_append,
        splitChar_cons_ne c x (xs ++ [c]) hx h (t ++ [[]]) (by rw [ih, hS]; rfl),
        splitChar_cons_ne c x xs hx h t hS, List.cons_append]

theorem splitChar_concat_ne (c x : Char) (hx : ¬ x = c) (l : List Char) :
    splitChar c (l ++ [x]) = (splitChar c l).modifyLast (fun u => u ++ [x]) := by
  induction l with
  | nil =>
    rw [List.nil_append, splitChar_nil,
      splitChar_cons_ne c x [] hx [] [] (splitChar_nil c)]
    rfl
  | cons y ys ih =>
    by_cases hy : y = c
    · subst hy
      rw [List.cons_append, splitChar_cons_self, splitChar_cons_self, ih,
        modifyLast_cons_of_ne_nil _ [] _ (splitChar_ne_nil y ys)]
    · obtain ⟨h, t, hS⟩ := splitChar_exists_cons c ys
      rcases List.eq_nil_or_concat t with rfl | ⟨t₀, a, rfl⟩
      · rw [List.cons_append,
          splitChar_cons_ne c y (ys ++ [x]) hy (h ++ [x]) []
            (by rw [ih, hS]; rfl),
          splitChar_cons_ne c y ys hy h [] hS]
        rfl
      · rw [List.concat_eq_append] at hS
        rw [List.cons_append,
          splitChar_cons_ne c y (ys ++ [x]) hy h (t₀ ++ [a ++ [x]])
            (by rw [ih, hS, modifyLast_cons_of_ne_nil _ h _ (by simp),
              List.modifyLast_append_one]),
          splitChar_cons_ne c y ys hy h (t₀ ++ [a]) hS,
          modifyLast_cons_of_ne_nil _ (y :: h) _ (by simp),
          List.modifyLast_append_one]

/-! ## Lemmas: `toks` invariance under stripping -/

theorem toks_nil : toks [] = [] := rfl

theorem toks_cons_ws (w : Char) (hw : w.isWhitespace) (l : List Char) :
    toks (w :: l) = toks l := by
  obtain ⟨h, t, hS⟩ := splitChar_exists_cons ',' l
  rw [toks, toks, splitChar_cons_ne ',' w l (ws_ne_comma w hw) h t hS, hS,
    List.map_cons, List.map_cons, stripWs_cons_ws w hw]

theorem toks_cons_comma (l : List Char) : toks (',' :: l) = toks l := by
  rw [toks, toks, splitChar_cons_self, List.map_cons, stripWs_nil]
  simp

theorem toks_concat_ws (l : List Char) (x : Char) (hx : x.isWhitespace) :
    toks (l ++ [x]) = toks l := by
  obtain ⟨S₀, a, hS⟩ :
      ∃ S₀ a, splitChar ',' l = S₀ ++ [a] := by
    rcases List.eq_nil_or_concat (splitChar ',' l) with h | ⟨S₀, a, h⟩
    · exact absurd h (splitChar_ne_nil ',' l)
    · exact ⟨S₀, a, by rw [h, List.concat_eq_append]⟩
  rw [toks, toks, splitChar_concat_ne ',' x (ws_ne_comma x hx) l, hS,
    List.modifyLast_append_one, List.map_append, List.map_append,
    List.map_singleton, List.map_singleton, stripWs_concat_ws a x hx]

theorem toks_concat_comma (l : List Char) : toks (l ++ [',']) = toks l := by
  rw [toks, toks, splitChar_concat_sep, List.map_append, List.map_singleton,
    List.filter_append, stripWs_nil]
  simp

theorem toks_dropWhile_ws (l : List Char) :
    toks (l.dropWhile Char.isWhitespace) = toks l := by
  induction l with
  | nil => rfl
  | cons x xs ih =>
    rw [List.dropWhile_cons]
    by_cases hx : x.isWhitespace
    · rw [if_pos hx, ih, toks_cons_ws x hx]
    · rw [if_neg hx]

theorem toks_dropWhile_comma (l : List Char) :
    toks (l.dropWhile (fun c => c = ',')) = toks l := by
  induction l with
  | nil => rfl
  | cons x xs ih =>
    rw [List.dropWhile_cons]
    by_cases hx : x = ','
    · subst hx
      rw [if_pos (by simp), ih, toks_cons_comma]
    · rw [if_neg (by simpa using hx)]

theorem toks_rdropWhile_ws (l : List Char) :
    toks (List.rdropWhile Char.isWhitespace l) = toks l := by
  induction l using List.reverseRecOn with
  | nil => rfl
  | append_singleton l x ih =>
    by_cases hx : x.isWhitespace
    · rw [List.rdropWhile_concat_pos _ _ x hx, ih, toks_concat_ws l x hx]
    · rw [List.rdropWhile_concat_neg _ _ x hx]

theorem toks_rdropWhile_comma (l : List Char) :
    toks (List.rdropWhile (fun c => c = ',') l) = toks l := by
  induction l using List.reverseRecOn with
  | nil => rfl
  | append_singleton l x ih =>
    by_cases hx : x = ','
    · subst hx
      rw [List.rdropWhile_concat_pos _ _ ',' (by simp), ih, toks_concat_comma]
    · rw [List.rdropWhile_concat_neg _ _ x (by simpa using hx)]

theorem toks_stripWs (l : List Char) : toks (stripWs l) = toks l := by
  rw [stripWs, toks_rdropWhile_ws, toks_dropWhile_ws]

theorem toks_stripComma (l : List Char) : toks (stripComma l) = toks l := by
  rw [stripComma, toks_rdropWhile_comma, toks_dropWhile_comma]

/-- The code's user parsing agrees with the spec-side tokenisation: the
pre-stripping of whitespace and commas and the early emptiness return do not
change the token list. -/
theorem parseUsersChars_eq_spec (output : List Char) :
    parseUsersChars output = specParseUsers output := by
  rw [parseUsersChars, specParseUsers]
  cases hS : splitFirst marker output with
  | none => rfl
  | some p =>
    show (if stripComma (stripWs p.2) = [] then []
        else ((splitChar ',' (stripComma (stripWs p.2))).map stripWs).filter
          (fun u => u ≠ [])) = toks p.2
    have hraw : toks (stripComma (stripWs p.2)) = toks p.2 := by
      rw [toks_stripComma, toks_stripWs]
    by_cases hempty : stripComma (stripWs p.2) = []
    · rw [if_pos hempty, ← hraw, hempty, toks_nil]
    · rw [if_neg hempty, ← hraw, toks]

/-- Every character of every chunk produced by `splitChar` comes from the
input and is not the separator. -/
theorem mem_of_mem_splitChar (c : Char) (l : List Char) (t : List Char)
    (ht : t ∈ splitChar c l) (x : Char) (hx : x ∈ t) : x ∈ l ∧ ¬ x = c := by
  induction l generalizing t with
  | nil =>
    rw [splitChar_nil, List.mem_singleton] at ht
    subst ht
    exact absurd hx (List.not_mem_nil x)
  | cons y ys ih =>
    by_cases hy : y = c
    · subst hy
      rw [splitChar_cons_self, List.mem_cons] at ht
      rcases ht with rfl | ht
      · exact absurd hx (List.not_mem_nil x)
      · obtain ⟨hmem, hne⟩ := ih t ht hx
        exact ⟨List.mem_cons_of_mem y hmem, hne⟩
    · obtain ⟨h, ts, hS⟩ := splitChar_exists_cons c ys
      rw [splitChar_cons_ne c y ys hy h ts hS, List.mem_cons] at ht
      rcases ht with rfl | ht
      · rw [List.mem_cons] at hx
        rcases hx with rfl | hx
        · exact ⟨List.mem_cons_self x ys, hy⟩
        · obtain ⟨hmem, hne⟩ := ih h (by rw [hS]; exact List.mem_cons_self h ts) hx
          exact ⟨List.mem_cons_of_mem y hmem, hne⟩
      · obtain ⟨hmem, hne⟩ := ih t (by rw [hS]; exact List.mem_cons_of_mem h ht) hx
        exact ⟨List.mem_cons_of_mem y hmem, hne⟩

/-- A section made only of commas and whitespace tokenises to nothing. -/
theorem toks_eq_nil_of_sep_ws (l : List Char)
    (h : ∀ x ∈ l, x = ',' ∨ x.isWhitespace) : toks l = [] := by
  rw [toks, List.filter_eq_nil_iff]
  intro a ha
  rw [List.mem_map] at ha
  obtain ⟨t, ht, rfl⟩ := ha
  have hws : ∀ x ∈ t, x.isWhitespace := by
    intro x hx
    obtain ⟨hmem, hne⟩ := mem_of_mem_splitChar ',' l t ht x hx
    rcases h x hmem with rfl | hw
    · exact absurd rfl hne
    · exact hw
  simp [stripWs_eq_nil t hws]

/-! ## Lemmas: the result dict of `_collect_all` -/

theorem any_key_iff (d : List (String × NodeStatus)) (k : String) :
    d.any (fun p => p.1 = k) = true ↔ k ∈ d.map Prod.fst := by
  rw [List.any_eq_true, List.mem_map]
  constructor
  · rintro ⟨p, hp, hpk⟩
    exact ⟨p, hp, by simpa using hpk⟩
  · rintro ⟨p, hp, hpk⟩
    exact ⟨p, hp, by simpa using hpk⟩

theorem keys_dictInsert (d : List (String × NodeStatus)) (k : String) (v : NodeStatus) :
    (dictInsert d k v).map Prod.fst =
      if d.any (fun p => p.1 = k) then d.map Prod.fst else d.map Prod.fst ++ [k] := by
  rw [dictInsert]
  by_cases hk : d.any (fun p => p.1 = k)
  · rw [if_pos hk, if_pos hk, List.map_map]
    refine List.map_congr_left ?_
    intro p _
    by_cases hp : p.1 = k
    · simp [hp]
    · simp [hp]
  · rw [if_neg hk, if_neg hk, List.map_append]
    rfl

theorem mem_keys_dictInsert (d : List (String × NodeStatus)) (k : String) (v : NodeStatus)
    (n : String) :
    n ∈ (dictInsert d k v).map Prod.fst ↔ n = k ∨ n ∈ d.map Prod.fst := by
  rw [keys_dictInsert]
  by_cases hk : d.any (fun p => p.1 = k)
  · rw [if_pos hk]
    have hmem := (any_key_iff d k).mp hk
    constructor
    · exact Or.inr
    · rintro (rfl | h)
      · exact hmem
      · exact h
  · rw [if_neg hk]
    simp [or_comm]

theorem nodup_keys_dictInsert (d : List (String × NodeStatus)) (k : String) (v : NodeStatus)
    (hd : (d.map Prod.fst).Nodup) : ((dictInsert d k v).map Prod.fst).Nodup := by
  rw [keys_dictInsert]
  by_cases hk : d.any (fun p => p.1 = k)
  · rwa [if_pos hk]
  · rw [if_neg hk]
    have hnot : k ∉ d.map Prod.fst := fun hmem => hk ((any_key_iff d k).mpr hmem)
    simp [List.nodup_append, hd, hnot]

theorem dictLookup_nil (n : String) : dictLookup [] n = none := rfl

theorem dictLookup_cons (q : String × NodeStatus) (d : List (String × NodeStatus))
    (n : String) :
    dictLookup (q :: d) n = if q.1 = n then some q.2 else dictLookup d n := by
  rw [dictLookup, List.find?_cons]
  by_cases hq : q.1 = n
  · simp [hq]
  · simp [hq, dictLookup]

theorem dictLookup_map_overwrite (d : List (String × NodeStatus)) (k : String)
    (v : NodeStatus) (n : String) :
    dictLookup (d.map (fun p => if p.1 = k then (k, v) else p)) n =
      if n = k then (dictLookup d k).map (fun _ => v) else dictLookup d n := by
  induction d with
  | nil => by_cases hn : n = k <;> simp [dictLookup, hn]
  | cons q d ih =>
    rw [List.map_cons, dictLookup_cons]
    by_cases hq : q.1 = k
    · rw [if_pos hq]
      by_cases hn : n = k
      · subst hn
        simp [dictLookup_cons, hq]
      · rw [if_neg hn, if_neg (by simpa using Ne.symm hn), ih, if_neg hn,
          dictLookup_cons, if_neg (by rw [hq]; exact Ne.symm hn)]
    · rw [if_neg hq]
      by_cases hn : n = k
      · subst hn
        rw [if_pos rfl, ih, if_pos rfl, dictLookup_cons]
        rw [if_neg hq]
        rw [if_neg hq]
      · rw [if_neg hn, ih, if_neg hn, dictLookup_cons]

theorem dictLookup_dictInsert (d : List (String × NodeStatus)) (k : String)
    (v : NodeStatus) (n : String) :
    dictLookup (dictInsert d k v) n = if n = k then some v else dictLookup d n := by
  rw [dictInsert]
  by_cases hk : d.any (fun p => p.1 = k)
  · rw [if_pos hk, dictLookup_map_overwrite]
    by_cases hn : n = k
    · subst hn
      rw [if_pos rfl, if_pos rfl]
      have hsome : (List.find? (fun p => p.1 = n) d).isSome := by
        rw [List.find?_isSome]
        obtain ⟨p, hp, hpk⟩ := List.any_eq_true.mp hk
        exact ⟨p, hp, hpk⟩
      rw [dictLookup]
      obtain ⟨q, hq⟩ := Option.isSome_iff_exists.mp hsome
      rw [hq]
      rfl
    · rw [if_neg hn, if_neg hn]
  · rw [if_neg hk, dictLookup, List.find?_append]
    by_cases hn : n = k
    · subst hn
      have hnone : List.find? (fun p => p.1 = n) d = none := by
        rw [List.find?_eq_none]
        intro p hp hpn
        exact hk (List.any_eq_true.mpr ⟨p, hp, hpn⟩)
      rw [if_pos rfl, hnone, Option.none_or]
      simp
    · rw [if_neg hn]
      have hnone : List.find? (fun p => p.1 = n) [(k, v)] = none := by
        rw [List.find?_eq_none]
        intro p hp hpn
        rw [List.mem_singleton] at hp
        subst hp
        have hkn : k = n := by simpa using hpn
        exact hn hkn.symm
      rw [hnone, Option.or_none]
      rfl

theorem collect_go_mem (cs : List (String × Except String NodeStatus))
    (d : List (String × NodeStatus)) (n : String) :
    n ∈ ((cs.foldl (fun d p => dictInsert d p.1 (settle p.2)) d).map Prod.fst) ↔
      n ∈ d.map Prod.fst ∨ n ∈ cs.map Prod.fst := by
  induction cs generalizing d with
  | nil => simp
  | cons p cs ih =>
    rw [List.foldl_cons, ih, mem_keys_dictInsert, List.map_cons, List.mem_cons]
    tauto

theorem collect_go_nodup (cs : List (String × Except String NodeStatus))
    (d : List (String × NodeStatus)) (hd : (d.map Prod.fst).Nodup) :
    ((cs.foldl (fun d p => dictInsert d p.1 (settle p.2)) d).map Prod.fst).Nodup := by
  induction cs generalizing d with
  | nil => exact hd
  | cons p cs ih =>
    rw [List.foldl_cons]
    exact ih _ (nodup_keys_dictInsert d p.1 (settle p.2) hd)

theorem collect_go_lookup (cs : List (String × Except String NodeStatus))
    (d : List (String × NodeStatus)) (n : String) :
    dictLookup (cs.foldl (fun d p => dictInsert d p.1 (settle p.2)) d) n =
      cs.foldl (fun acc p => if p.1 = n then some (settle p.2) else acc) (dictLookup d n) := by
  induction cs generalizing d with
  | nil => rfl
  | cons p cs ih =>
    rw [List.foldl_cons, List.foldl_cons, ih, dictLookup_dictInsert]
    by_cases hp : p.1 = n
    · rw [if_pos hp, if_pos (by rw [hp])]
    · rw [if_neg hp, if_neg (fun h => hp (by rw [h]))]

theorem collectResults_mem (cs : List (String × Except String NodeStatus)) (n : String) :
    n ∈ (collectResults cs).map Prod.fst ↔ n ∈ cs.map Prod.fst := by
  rw [collectResults, collect_go_mem]
  simp

theorem collectResults_nodup (cs : List (String × Except String NodeStatus)) :
    ((collectResults cs).map Prod.fst).Nodup := by
  rw [collectResults]
  exact collect_go_nodup cs [] List.nodup_nil

theorem lastFor_map_settle (cs : List (String × Except String NodeStatus)) (n : String)
    (a : Option (Except String NodeStatus)) :
    cs.foldl (fun acc p => if p.1 = n then some (settle p.2) else acc) (a.map settle) =
      (cs.foldl (fun acc p => if p.1 = n then some p.2 else acc) a).map settle := by
  induction cs generalizing a with
  | nil => rfl
  | cons p cs ih =>
    rw [List.foldl_cons, List.foldl_cons]
    by_cases hp : p.1 = n
    · rw [if_pos hp, if_pos hp]
      exact ih (some p.2)
    · rw [if_neg hp, if_neg hp]
      exact ih a

theorem collectResults_lookup (cs : List (String × Except String NodeStatus)) (n : String) :
    dictLookup (collectResults cs) n = (lastFor n cs).map settle := by
  rw [collectResults, collect_go_lookup, dictLookup_nil, lastFor]
  exact lastFor_map_settle cs n none

theorem collectResults_length (cs : List (String × Except String NodeStatus)) :
    (collectResults cs).length = (cs.map Prod.fst).dedup.length := by
  have h2 : ((collectResults cs).map Prod.fst).toFinset = (cs.map Prod.fst).toFinset := by
    ext n
    simp only [List.mem_toFinset]
    exact collectResults_mem cs n
  rw [← List.length_map (collectResults cs) Prod.fst,
    ← List.toFinset_card_of_nodup (collectResults_nodup cs), h2, List.card_toFinset]

/-- Every entry of `dictInsert d k v` is an old entry of `d` or the pair
`(k, v)`. -/
theorem mem_dictInsert (d : List (String × NodeStatus)) (k : String) (v : NodeStatus)
    (q : String × NodeStatus) (hq : q ∈ dictInsert d k v) : q ∈ d ∨ q = (k, v) := by
  rw [dictInsert] at hq
  by_cases hk : d.any (fun p => p.1 = k)
  · rw [if_pos hk, List.mem_map] at hq
    obtain ⟨p, hp, hpq⟩ := hq
    by_cases hpk : p.1 = k
    · rw [if_pos hpk] at hpq
      exact Or.inr hpq.symm
    · rw [if_neg hpk] at hpq
      exact Or.inl (hpq ▸ hp)
  · rw [if_neg hk, List.mem_append, List.mem_singleton] at hq
    exact hq

/-- Every entry of the result dict was produced by settling one completed
future from the completion sequence. -/
theorem collect_go_values (cs : List (String × Except String NodeStatus))
    (d : List (String × NodeStatus)) (q : String × NodeStatus)
    (hq : q ∈ cs.foldl (fun d p => dictInsert d p.1 (settle p.2)) d) :
    q ∈ d ∨ ∃ p ∈ cs, q = (p.1, settle p.2) := by
  induction cs generalizing d with
  | nil => exact Or.inl hq
  | cons p cs ih =>
    rw [List.foldl_cons] at hq
    rcases ih (dictInsert d p.1 (settle p.2)) hq with hmem | ⟨r, hr, hqr⟩
    · rcases mem_dictInsert d p.1 (settle p.2) q hmem with hd | hkv
      · exact Or.inl hd
      · exact Or.inr ⟨p, List.mem_cons_self p cs, hkv⟩
    · exact Or.inr ⟨r, List.mem_cons_of_mem p hr, hqr⟩

theorem collectResults_values (cs : List (String × Except String NodeStatus))
    (q : String × NodeStatus) (hq : q ∈ collectResults cs) :
    ∃ p ∈ cs, q = (p.1, settle p.2) := by
  rcases collect_go_values cs [] q hq with hmem | h
  · exact absurd hmem (List.not_mem_nil q)
  · exact h

/-! ## Lemmas: the node prober -/

theorem string_mk_eq_empty_iff (l : List Char) : String.mk l = "" ↔ l = [] := by
  constructor
  · intro h
    have hd := congrArg String.data h
    simpa using hd
  · intro h
    subst h
    rfl

theorem pyTruncate_eq_empty_iff (s : String) : pyTruncate 200 s = "" ↔ s = "" := by
  rw [pyTruncate, string_mk_eq_empty_iff, List.take_eq_nil_iff]
  constructor
  · rintro (h | h)
    · exact absurd h (by decide)
    · exact String.ext (by simpa using h)
  · intro h
    subst h
    exact Or.inr rfl

/-- The non-zero-exit branch of `_query_node`, in one equation. -/
theorem query_node_nonzero (parse : String → List Gpu) (rc : Int)
    (stdout stderr : String) (hrc : ¬ rc = 0) :
    _query_node parse (ExecOutcome.completed rc stdout stderr) =
      { status := "error",
        message := some (pyOr (pyTruncate 200 (pyOr (pyStrip stderr) (pyStrip stdout)))
          "nvidia-smi failed") } := by
  simp [_query_node, hrc]

/-- The success branch of `_query_node`, in one equation. -/
theorem query_node_zero (parse : String → List Gpu) (stdout stderr : String) :
    _query_node parse (ExecOutcome.completed 0 stdout stderr) =
      { status := "ok",
        gpus := parse (pyStrip (String.mk (beforeMarker stdout.data))),
        users := _parse_users stdout } := by
  simp [_query_node]

theorem statusInvariant_errFromExc (e : String) : statusInvariant (errFromExc e) := by
  refine ⟨?_, Or.inr rfl, fun _ => ⟨rfl, rfl⟩⟩
  simp [errFromExc]

theorem statusInvariant_query_node (parse : String → List Gpu) (oc : ExecOutcome) :
    statusInvariant (_query_node parse oc) := by
  cases oc with
  | completed rc stdout stderr =>
    by_cases hrc : rc = 0
    · subst hrc
      rw [query_node_zero]
      refine ⟨?_, Or.inl rfl, fun h => ?_⟩
      · simp
      · have hcontra : ("ok" : String) = "error" := h
        exact absurd hcontra (by decide)
    · rw [query_node_nonzero parse rc stdout stderr hrc]
      refine ⟨?_, Or.inr rfl, fun _ => ⟨rfl, rfl⟩⟩
      simp
  | timedOut =>
    refine ⟨?_, Or.inr rfl, fun _ => ⟨rfl, rfl⟩⟩
    simp [_query_node]
  | raised d =>
    refine ⟨?_, Or.inr rfl, fun _ => ⟨rfl, rfl⟩⟩
    simp [_query_node]

/-! ## Lemmas: cache and scheduler -/

theorem runOps_reads (st : CacheState) (ops : List Op)
    (h : ∀ o ∈ ops, o = Op.read) : runOps st ops = st := by
  induction ops with
  | nil => rfl
  | cons o ops ih =>
    have ho : o = Op.read := h o (List.mem_cons_self o ops)
    subst ho
    exact ih (fun o hmem => h o (List.mem_cons_of_mem _ hmem))

theorem maxWorkers_pos (nodes : List String) (hne : nodes ≠ []) :
    ¬ maxWorkers nodes ≤ 0 := by
  rw [maxWorkers]
  have hlen : 0 < nodes.length := List.length_pos.mpr hne
  have hmin : 0 < min 20 (nodes.length * 2) := lt_min (by decide) (by omega)
  exact Nat.not_le.mpr hmin

theorem collect_all_ok (nodes : List String)
    (cs : List (String × Except String NodeStatus)) (hne : nodes ≠ []) :
    _collect_all nodes cs = Except.ok (collectResults cs) := by
  rw [_collect_all, if_neg (maxWorkers_pos nodes hne)]

theorem collect_all_ok_elim (nodes : List String)
    (cs : List (String × Except String NodeStatus)) (d : List (String × NodeStatus))
    (hd : _collect_all nodes cs = Except.ok d) : d = collectResults cs := by
  by_cases hw : maxWorkers nodes ≤ 0
  · rw [_collect_all, if_pos hw] at hd
    exact Except.noConfusion hd
  · rw [_collect_all, if_neg hw] at hd
    injection hd with h
    exact h.symm

theorem update_cache_ok (ts : String) (nodes : List String)
    (cs : List (String × Except String NodeStatus)) (st : CacheState)
    (hne : nodes ≠ []) :
    _update_cache ts nodes cs st =
      Except.ok ⟨some ⟨ts, (collectResults cs).map (fun p => (p.1, toEntry p.2))⟩⟩ := by
  rw [_update_cache, collect_all_ok nodes cs hne]

theorem update_cache_ok_elim (ts : String) (nodes : List String)
    (cs : List (String × Except String NodeStatus)) (st st2 : CacheState)
    (hd : _update_cache ts nodes cs st = Except.ok st2) :
    st2 = ⟨some ⟨ts, (collectResults cs).map (fun p => (p.1, toEntry p.2))⟩⟩ := by
  by_cases hw : maxWorkers nodes ≤ 0
  · rw [_update_cache, _collect_all, if_pos hw] at hd
    exact Except.noConfusion hd
  · rw [_update_cache, _collect_all, if_neg hw] at hd
    injection hd with h
    exact h.symm

/-! ## Claims -/

/-- C1 counterexample: for the empty requested node list the claim as
stated is false — `_collect_all` does not return normally, because
`ThreadPoolExecutor(max_workers=min(20, 2 * 0))` rejects a non-positive
worker count with `ValueError` before any probe is submitted, and
`_collect_all` has no handler for it. -/
theorem C1_empty_nodes_counterexample :
    _collect_all [] [] = Except.error "max_workers must be greater than 0" := rfl

/-- C1 (amended): for every non-empty list of requested node identifiers,
`_collect_all` returns normally — the executor construction succeeds, and
the collection loop is total over the completion sequence, which covers
probes that succeed, fail, or raise — and the returned dict contains exactly
one entry per requested node identifier: its keys are duplicate-free, and an
identifier is a key exactly when it was requested. -/
theorem C1_collect_all_one_result_per_node (nodes : List String)
    (cs : List (String × Except String NodeStatus))
    (hne : nodes ≠ []) (hperm : (cs.map Prod.fst).Perm nodes) :
    _collect_all nodes cs = Except.ok (collectResults cs) ∧
    ((collectResults cs).map Prod.fst).Nodup ∧
    ∀ n, n ∈ (collectResults cs).map Prod.fst ↔ n ∈ nodes := by
  refine ⟨collect_all_ok nodes cs hne, collectResults_nodup cs, fun n => ?_⟩
  rw [collectResults_mem]
  exact hperm.mem_iff

theorem C1_collect_all_one_result_per_node_witness :
    (["a", "b"] : List String) ≠ [] ∧
    (([("b", Except.error "boom"),
        ("a", Except.ok ({ status := "ok" } : NodeStatus))].map Prod.fst).Perm
      ["a", "b"]) ∧
    _collect_all ["a", "b"] [("b", Except.error "boom"),
        ("a", Except.ok ({ status := "ok" } : NodeStatus))] =
      Except.ok (collectResults [("b", Except.error "boom"),
        ("a", Except.ok ({ status := "ok" } : NodeStatus))]) ∧
    ((collectResults [("b", Except.error "boom"),
        ("a", Except.ok ({ status := "ok" } : NodeStatus))]).map Prod.fst).Nodup ∧
    ("a" ∈ (collectResults [("b", Except.error "boom"),
        ("a", Except.ok ({ status := "ok" } : NodeStatus))]).map Prod.fst ↔
      "a" ∈ ["a", "b"]) := by
  refine ⟨by decide, by decide, ?_, ?_, ?_⟩
  · exact (C1_collect_all_one_result_per_node ["a", "b"] _ (by decide) (by decide)).1
  · exact (C1_collect_all_one_result_per_node ["a", "b"] _ (by decide) (by decide)).2.1
  · exact (C1_collect_all_one_result_per_node ["a", "b"] _ (by decide) (by decide)).2.2 "a"

/-- C2 counterexample: with exit status 1 and both streams empty,
`_query_node` reports status=error but the fallback message is the literal
"nvidia-smi failed", not "command failed" as the claim states. -/
theorem C2_fallback_literal_counterexample :
    (_query_node (fun _ => []) (ExecOutcome.completed 1 "" "")).status = "error" ∧
    ¬ (_query_node (fun _ => []) (ExecOutcome.completed 1 "" "")).message =
      some "command failed" := by
  constructor
  · rfl
  · intro h
    have hmsg : (_query_node (fun _ => []) (ExecOutcome.completed 1 "" "")).message =
        some "nvidia-smi failed" := rfl
    rw [hmsg] at h
    have : ("nvidia-smi failed" : String) = "command failed" := by
      injection h
    exact absurd this (by decide)

/-- C2 (amended): whenever the exit status is non-zero, `_query_node`
returns status=error whose message is the first 200 characters of the
stripped standard error, falling back to the stripped standard output when
stripped stderr is empty, and whose value is the fixed fallback text
"nvidia-smi failed" when both streams are empty. -/
theorem C2_nonzero_exit_message (parse : String → List Gpu) (rc : Int)
    (stdout stderr : String) (hrc : ¬ rc = 0) :
    (_query_node parse (ExecOutcome.completed rc stdout stderr)).status = "error" ∧
    (¬ pyStrip stderr = "" →
      (_query_node parse (ExecOutcome.completed rc stdout stderr)).message =
        some (pyTruncate 200 (pyStrip stderr))) ∧
    (pyStrip stderr = "" → ¬ pyStrip stdout = "" →
      (_query_node parse (ExecOutcome.completed rc stdout stderr)).message =
        some (pyTruncate 200 (pyStrip stdout))) ∧
    (pyStrip stderr = "" → pyStrip stdout = "" →
      (_query_node parse (ExecOutcome.completed rc stdout stderr)).message =
        some "nvidia-smi failed") := by
  rw [query_node_nonzero parse rc stdout stderr hrc]
  refine ⟨rfl, fun he => ?_, fun he ho => ?_, fun he ho => ?_⟩
  · have hinner : pyOr (pyStrip stderr) (pyStrip stdout) = pyStrip stderr := by
      rw [pyOr, if_neg he]
    show some (pyOr (pyTruncate 200 (pyOr (pyStrip stderr) (pyStrip stdout)))
      "nvidia-smi failed") = _
    rw [hinner, pyOr, if_neg (fun h => he ((pyTruncate_eq_empty_iff _).mp h))]
  · have hinner : pyOr (pyStrip stderr) (pyStrip stdout) = pyStrip stdout := by
      rw [pyOr, if_pos he]
    show some (pyOr (pyTruncate 200 (pyOr (pyStrip stderr) (pyStrip stdout)))
      "nvidia-smi failed") = _
    rw [hinner, pyOr, if_neg (fun h => ho ((pyTruncate_eq_empty_iff _).mp h))]
  · show some (pyOr (pyTruncate 200 (pyOr (pyStrip stderr) (pyStrip stdout)))
      "nvidia-smi failed") = _
    rw [he, ho]
    rfl

theorem C2_nonzero_exit_message_witness :
    (¬ (1 : Int) = 0) ∧
    (_query_node (fun _ => []) (ExecOutcome.completed 1 "out" "  err ")).status =
      "error" ∧
    (¬ pyStrip "  err " = "") ∧
    (_query_node (fun _ => []) (ExecOutcome.completed 1 "out" "  err ")).message =
      some (pyTruncate 200 (pyStrip "  err ")) := by
  refine ⟨by decide, ?_, by decide, ?_⟩
  · exact (C2_nonzero_exit_message (fun _ => []) 1 "out" "  err " (by decide)).1
  · exact (C2_nonzero_exit_message (fun _ => []) 1 "out" "  err "
      (by decide)).2.1 (by decide)

/-- C3: whenever the invocation exceeds the execution timeout
(`subprocess.TimeoutExpired`), `_query_node` returns status=error with the
message exactly the literal "Connection timeout" and nothing else. -/
theorem C3_timeout_literal (parse : String → List Gpu) :
    _query_node parse ExecOutcome.timedOut =
      { status := "error", gpus := [], users := [],
        message := some "Connection timeout" } := rfl

theorem C3_timeout_literal_witness :
    _query_node (fun _ => []) ExecOutcome.timedOut =
      { status := "error", gpus := [], users := [],
        message := some "Connection timeout" } :=
  C3_timeout_literal (fun _ => [])

/-- C4: parsing an output containing `---USERS---` followed by
`alice,bob,,  carol ,` yields `["alice", "bob", "carol"]`; and in general
the code's parsing agrees with the spec-side description: the text after the
marker is split on commas, each token is trimmed of surrounding whitespace,
and empty or whitespace-only tokens are dropped. -/
theorem C4_parse_users_tokens :
    (∀ output : List Char, parseUsersChars output = specParseUsers output) ∧
    _parse_users "gpu 0\n---USERS---alice,bob,,  carol ," =
      ["alice", "bob", "carol"] :=
  ⟨parseUsersChars_eq_spec, by decide⟩

theorem C4_parse_users_tokens_witness :
    parseUsersChars "---USERS---a, b".data = specParseUsers "---USERS---a, b".data :=
  C4_parse_users_tokens.1 "---USERS---a, b".data

/-- C5: user-list parsing is total (a Lean function), returns the empty
list when the `---USERS---` marker is absent, and returns the empty list
when the section after the marker consists only of commas and whitespace
(in particular when it is empty, whitespace-only or comma-only). -/
theorem C5_parse_users_safe :
    (∀ output : String, splitFirst marker output.data = none →
      _parse_users output = []) ∧
    (∀ output b rest : List Char, splitFirst marker output = some (b, rest) →
      (∀ c ∈ rest, c = ',' ∨ c.isWhitespace) → parseUsersChars output = []) := by
  constructor
  · intro output h
    simp [_parse_users, parseUsersChars, h]
  · intro output b rest h hcw
    rw [parseUsersChars_eq_spec]
    simp only [specParseUsers, h]
    exact toks_eq_nil_of_sep_ws rest hcw

theorem C5_parse_users_safe_witness :
    (splitFirst marker "no marker".data = none ∧ _parse_users "no marker" = []) ∧
    (splitFirst marker "---USERS--- ,, ".data = some ([], " ,, ".data) ∧
      parseUsersChars "---USERS--- ,, ".data = []) := by
  refine ⟨⟨by decide, ?_⟩, ⟨by decide, ?_⟩⟩
  · exact C5_parse_users_safe.1 "no marker" (by decide)
  · exact C5_parse_users_safe.2 "---USERS--- ,, ".data [] " ,, ".data (by decide)
      (by decide)

/-- C6: every `NodeStatus` produced by `_query_node`, and every value of
any dict returned by `_collect_all` (given that probes that completed
normally produced invariant-respecting statuses, which `_query_node`
guarantees; the except-clause error records always do), satisfies: message
is non-null iff status=error, the status is `ok` or `error`, and an error
node has empty gpus and users. -/
theorem C6_node_result_invariant :
    (∀ (parse : String → List Gpu) (oc : ExecOutcome),
      statusInvariant (_query_node parse oc)) ∧
    (∀ (nodes : List String) (cs : List (String × Except String NodeStatus)),
      (∀ p ∈ cs, ∀ ns, p.2 = Except.ok ns → statusInvariant ns) →
      ∀ d, _collect_all nodes cs = Except.ok d →
      ∀ q ∈ d, statusInvariant q.2) := by
  refine ⟨statusInvariant_query_node, ?_⟩
  intro nodes cs hok d hd q hq
  rw [collect_all_ok_elim nodes cs d hd] at hq
  obtain ⟨p, hp, rfl⟩ := collectResults_values cs q hq
  show statusInvariant (settle p.2)
  cases hr : p.2 with
  | ok ns => exact hok p hp ns hr
  | error e => exact statusInvariant_errFromExc e

theorem C6_node_result_invariant_witness :
    statusInvariant (_query_node (fun _ => []) ExecOutcome.timedOut) ∧
    statusInvariant (NodeStatus.mk "error" [] [] (some "boom")) := by
  constructor
  · exact C6_node_result_invariant.1 (fun _ => []) ExecOutcome.timedOut
  · refine C6_node_result_invariant.2 ["a"] [("a", Except.error "boom")] ?_
      [("a", NodeStatus.mk "error" [] [] (some "boom"))] ?_
      ("a", NodeStatus.mk "error" [] [] (some "boom")) ?_
    · intro p hp ns hns
      rw [List.mem_singleton] at hp
      subst hp
      exact Except.noConfusion hns
    · rfl
    · decide

/-- C7: a cache read before any successful collection returns exactly
`{last_updated: none, nodes: []}`; whenever a collection cycle completes
(`_update_cache` returns — guaranteed for a non-empty configured list), the
read-back snapshot has a non-null timestamp and exactly one node entry per
configured node (the keys are a permutation of the duplicate-free configured
list). -/
theorem C7_cache_before_and_after :
    get_status initialCache = { last_updated := none, nodes := [] } ∧
    ∀ (ts : String) (nodes : List String)
      (cs : List (String × Except String NodeStatus)) (st : CacheState),
      (cs.map Prod.fst).Perm nodes → nodes.Nodup →
      (nodes ≠ [] → ∃ st2, _update_cache ts nodes cs st = Except.ok st2) ∧
      ∀ st2, _update_cache ts nodes cs st = Except.ok st2 →
        (get_status st2).last_updated = some ts ∧
        ((get_status st2).nodes.map Prod.fst).Perm nodes := by
  refine ⟨rfl, ?_⟩
  intro ts nodes cs st hperm hnodup
  constructor
  · intro hne
    exact ⟨_, update_cache_ok ts nodes cs st hne⟩
  · intro st2 hd
    rw [update_cache_ok_elim ts nodes cs st st2 hd]
    refine ⟨rfl, ?_⟩
    show ((((collectResults cs).map (fun p => (p.1, toEntry p.2))).map Prod.fst).Perm nodes)
    rw [List.map_map]
    show (((collectResults cs).map Prod.fst).Perm nodes)
    refine List.perm_of_nodup_nodup_toFinset_eq (collectResults_nodup cs) hnodup ?_
    ext n
    simp only [List.mem_toFinset]
    rw [collectResults_mem]
    exact hperm.mem_iff

theorem C7_cache_before_and_after_witness :
    (([("b", Except.error "down"),
        ("a", Except.ok ({ status := "ok" } : NodeStatus))].map Prod.fst).Perm
      ["a", "b"]) ∧
    (["a", "b"] : List String).Nodup ∧
    (∃ st2, _update_cache "2026-01-01T00:00:00+00:00" ["a", "b"]
      [("b", Except.error "down"),
       ("a", Except.ok ({ status := "ok" } : NodeStatus))] initialCache =
        Except.ok st2) ∧
    (get_status (CacheState.mk (some (Snapshot.mk "2026-01-01T00:00:00+00:00"
        [("b", NodeStatus.mk "error" [] [] (some "down")),
         ("a", NodeStatus.mk "ok" [] [] none)])))).last_updated =
      some "2026-01-01T00:00:00+00:00" ∧
    ((get_status (CacheState.mk (some (Snapshot.mk "2026-01-01T00:00:00+00:00"
        [("b", NodeStatus.mk "error" [] [] (some "down")),
         ("a", NodeStatus.mk "ok" [] [] none)])))).nodes.map Prod.fst).Perm
      ["a", "b"] := by
  refine ⟨by decide, by decide, ?_, ?_, ?_⟩
  · exact (C7_cache_before_and_after.2 "2026-01-01T00:00:00+00:00" ["a", "b"]
      [("b", Except.error "down"),
       ("a", Except.ok ({ status := "ok" } : NodeStatus))]
      initialCache (by decide) (by decide)).1 (by decide)
  · exact ((C7_cache_before_and_after.2 "2026-01-01T00:00:00+00:00" ["a", "b"]
      [("b", Except.error "down"),
       ("a", Except.ok ({ status := "ok" } : NodeStatus))]
      initialCache (by decide) (by decide)).2
      (CacheState.mk (some (Snapshot.mk "2026-01-01T00:00:00+00:00"
        [("b", NodeStatus.mk "error" [] [] (some "down")),
         ("a", NodeStatus.mk "ok" [] [] none)]))) (by rfl)).1
  · exact ((C7_cache_before_and_after.2 "2026-01-01T00:00:00+00:00" ["a", "b"]
      [("b", Except.error "down"),
       ("a", Except.ok ({ status := "ok" } : NodeStatus))]
      initialCache (by decide) (by decide)).2
      (CacheState.mk (some (Snapshot.mk "2026-01-01T00:00:00+00:00"
        [("b", NodeStatus.mk "error" [] [] (some "down")),
         ("a", NodeStatus.mk "ok" [] [] none)]))) (by rfl)).2

/-- C8: reading the cache twice with no intervening refresh (any sequence
of pure reads in between) yields identical snapshots: a read-only operation
sequence leaves `get_status` unchanged. -/
theorem C8_reads_idempotent (st : CacheState) (ops : List Op)
    (h : ∀ o ∈ ops, o = Op.read) :
    get_status (runOps st ops) = get_status st := by
  rw [runOps_reads st ops h]

theorem C8_reads_idempotent_witness :
    (∀ o ∈ [Op.read, Op.read], o = Op.read) ∧
    get_status (runOps initialCache [Op.read, Op.read]) = get_status initialCache := by
  have hops : ∀ o ∈ [Op.read, Op.read], o = Op.read := by
    intro o ho
    rcases List.mem_cons.mp ho with rfl | ho
    · rfl
    · rcases List.mem_cons.mp ho with rfl | ho
      · rfl
      · exact absurd ho (List.not_mem_nil o)
  exact ⟨hops, C8_reads_idempotent initialCache [Op.read, Op.read] hops⟩

/-- C9: `start_collector` runs the initial collection synchronously and
unprotected: a failing initial update propagates out of `start_collector`
and the background thread is never started; whereas one iteration of the
background loop swallows the same failure and keeps the previous state. -/
theorem C9_initial_failure_propagates :
    (∀ (upd : CacheState → Except String CacheState) (st : CacheState) (e : String),
      upd st = Except.error e → start_collector upd st = Except.error e) ∧
    (∀ (upd : CacheState → Except String CacheState) (st st2 : CacheState),
      upd st = Except.ok st2 →
      start_collector upd st = Except.ok { state := st2, threadStarted := true }) ∧
    (∀ (upd : CacheState → Except String CacheState) (st : CacheState) (e : String),
      upd st = Except.error e → backgroundIter st upd = st) := by
  refine ⟨?_, ?_, ?_⟩
  · intro upd st e h
    simp [start_collector, h]
  · intro upd st st2 h
    simp [start_collector, h]
  · intro upd st e h
    simp [backgroundIter, h]

theorem C9_initial_failure_propagates_witness :
    ((fun _ : CacheState => (Except.error "ssh exploded" : Except String CacheState))
      initialCache = Except.error "ssh exploded") ∧
    start_collector (fun _ => Except.error "ssh exploded") initialCache =
      Except.error "ssh exploded" ∧
    backgroundIter initialCache (fun _ => Except.error "ssh exploded") = initialCache := by
  refine ⟨rfl, ?_, ?_⟩
  · exact C9_initial_failure_propagates.1 _ initialCache "ssh exploded" rfl
  · exact C9_initial_failure_propagates.2.2 _ initialCache "ssh exploded" rfl

/-- C10: when the requested node list contains duplicate identifiers, the
dict built by the collection loop — and returned by `_collect_all` whenever
the request is non-empty — has one entry per distinct identifier (its size
is the number of distinct requested identifiers), and the entry stored for
each identifier is the settled result of the last completion for it —
later-completing probes for the same identifier overwrite earlier ones. -/
theorem C10_duplicates_last_write_wins (nodes : List String)
    (cs : List (String × Except String NodeStatus))
    (hperm : (cs.map Prod.fst).Perm nodes) :
    (collectResults cs).length = nodes.dedup.length ∧
    (∀ n, dictLookup (collectResults cs) n = (lastFor n cs).map settle) ∧
    (nodes ≠ [] → _collect_all nodes cs = Except.ok (collectResults cs)) := by
  refine ⟨?_, collectResults_lookup cs, fun hne => collect_all_ok nodes cs hne⟩
  rw [collectResults_length, (hperm.dedup).length_eq]

theorem C10_duplicates_last_write_wins_witness :
    (([("a", Except.ok ({ status := "ok" } : NodeStatus)),
        ("a", Except.error "boom")].map Prod.fst).Perm ["a", "a"]) ∧
    (collectResults [("a", Except.ok ({ status := "ok" } : NodeStatus)),
        ("a", Except.error "boom")]).length = (["a", "a"] : List String).dedup.length ∧
    dictLookup (collectResults [("a", Except.ok ({ status := "ok" } : NodeStatus)),
        ("a", Except.error "boom")]) "a" =
      (lastFor "a" [("a", Except.ok ({ status := "ok" } : NodeStatus)),
        ("a", Except.error "boom")]).map settle ∧
    _collect_all ["a", "a"] [("a", Except.ok ({ status := "ok" } : NodeStatus)),
        ("a", Except.error "boom")] =
      Except.ok (collectResults [("a", Except.ok ({ status := "ok" } : NodeStatus)),
        ("a", Except.error "boom")]) := by
  refine ⟨by decide, ?_, ?_, ?_⟩
  · exact (C10_duplicates_last_write_wins ["a", "a"] _ (by decide)).1
  · exact (C10_duplicates_last_write_wins ["a", "a"] _ (by decide)).2.1 "a"
  · exact (C10_duplicates_last_write_wins ["a", "a"] _ (by decide)).2.2 (by decide)

end Collector
